import Mathlib

/-!
Verification development for `monitor_packet_loss.py` (class `PacketLossMonitor`).

The statistics engine of the script is embedded shallowly:

* one raw input line (together with the hour key that `datetime.now()` would
  produce while the line is processed) is an `InLine`;
* the mutable fields of `PacketLossMonitor` form the structure `Monitor`;
* processing one line of `PacketLossMonitor.run`'s loop body (lines 120-179 of
  the source) is `processLine`; a whole stream is `processAll`;
* the periodic 100-packet window report printed by the loop is materialised as
  a `Report` value emitted by `processLine`.

Numeric values are modelled as exact rationals (`Rat`): Python floats are an
approximation of these and every formula in the spec is stated over exact
arithmetic.  `statistics.stdev` returns the non-negative square root of the
Bessel-corrected sample variance; jitter is therefore modelled by its square
(`jitterSqOf`), which determines the reported value uniquely because the square
root is injective on non-negative numbers.  Character classes of the regular
expression `time[=\s]+(\d+\.?\d*)\s*ms` are modelled over their ASCII content.
-/

namespace PacketLoss

/-- ASCII whitespace, the content of Python's `str.strip` / regex `\s` class. -/
def isWSChar (c : Char) : Bool :=
  c = ' ' || c = '\t' || c = '\n' || c = '\r' || c = '\x0b' || c = '\x0c'

/-- The character class `[=\s]` of the latency regular expression. -/
def isEqWS (c : Char) : Bool := c = '=' || isWSChar c

/-- ASCII lowercasing, as `str.lower` acts on the lines of interest. -/
def toLowerChar (c : Char) : Char :=
  if 'A' ≤ c && c ≤ 'Z' then Char.ofNat (c.toNat + 32) else c

/-- `line.lower()`. -/
def lowerStr (cs : List Char) : List Char := cs.map toLowerChar

/-- Python's `needle in hay` substring test. -/
def containsStr (hay needle : List Char) : Bool :=
  match hay with
  | [] => needle.isEmpty
  | _ :: t => needle.isPrefixOf hay || containsStr t needle

/-- Python's `line.strip()`: remove leading and trailing whitespace. -/
def strip (cs : List Char) : List Char :=
  ((cs.dropWhile isWSChar).reverse.dropWhile isWSChar).reverse

/-- Numeric value of a digit string (the integer part of a regex match). -/
def natOfDigits (ds : List Char) : Nat :=
  ds.foldl (fun n c => n * 10 + (c.toNat - 48)) 0

/-- Value of `float(intDigits ++ "." ++ fracDigits)` as an exact rational. -/
def ratOfParts (intDs fracDs : List Char) : Rat :=
  (natOfDigits intDs : Rat) + (natOfDigits fracDs : Rat) / (10 : Rat) ^ fracDs.length

/--
Match of the tail `[=\s]+(\d+\.?\d*)\s*ms` of the latency pattern against a
suffix that directly follows the literal `time`.  Each greedy repetition is a
maximal munch; as in the Python regex, no shorter munch can ever succeed here
because the character classes involved are disjoint.
-/
def matchTimeTail (cs : List Char) : Option Rat :=
  let eqs := cs.takeWhile isEqWS
  let r1 := cs.dropWhile isEqWS
  if eqs.isEmpty then none
  else
    let d1 := r1.takeWhile Char.isDigit
    let r2 := r1.dropWhile Char.isDigit
    if d1.isEmpty then none
    else
      let pair :=
        match r2 with
        | '.' :: rest => (rest.takeWhile Char.isDigit, rest.dropWhile Char.isDigit)
        | _ => ([], r2)
      let r4 := pair.2.dropWhile isWSChar
      match r4 with
      | 'm' :: 's' :: _ => some (ratOfParts d1 pair.1)
      | _ => none

/-- `re.search(r'time[=\s]+(\d+\.?\d*)\s*ms', line)`: value of the first
(leftmost) match of the latency pattern, if any. -/
def searchTime : List Char → Option Rat
  | 't' :: 'i' :: 'm' :: 'e' :: rest =>
    match matchTimeTail rest with
    | some v => some v
    | none => searchTime ('i' :: 'm' :: 'e' :: rest)
  | _ :: cs => searchTime cs
  | [] => none

/-- `'icmp_seq' in line or 'icmp_seq=' in line` (source line 132). -/
def isIcmpLine (line : List Char) : Bool :=
  containsStr line "icmp_seq".toList || containsStr line "icmp_seq=".toList

/-- `'time=' in line or 'time =' in line` (source line 137). -/
def isTimeLine (line : List Char) : Bool :=
  containsStr line "time=".toList || containsStr line "time =".toList

/-- `'Request timeout' in line or 'timeout' in line.lower()` (source line 156). -/
def isTimeoutLine (line : List Char) : Bool :=
  containsStr line "Request timeout".toList || containsStr (lowerStr line) "timeout".toList

/-- One `hourly_stats` bucket: `{'sent': 0, 'received': 0, 'latencies': []}`. -/
structure HourStat where
  sent : Nat
  received : Nat
  latencies : List Rat
deriving DecidableEq

/-- The lazily-created default bucket of the `defaultdict`. -/
def emptyHourStat : HourStat := ⟨0, 0, []⟩

/-- One input line, together with the hour key `now.strftime('%Y-%m-%d %H:00')`
observed while it is processed (time itself is external to the core). -/
structure InLine where
  hour : List Char
  text : List Char
deriving DecidableEq

/-- The mutable statistics fields of `PacketLossMonitor`.  The `defaultdict`
`hourly_stats` is an association list in insertion order (Python dictionaries
preserve insertion order). -/
structure Monitor where
  packets_sent : Nat
  packets_received : Nat
  window_sent : Nat
  window_received : Nat
  latencies : List Rat
  window_latencies : List Rat
  min_latency : Option Rat
  max_latency : Option Rat
  max_window_loss_pct : Rat
  hourly_stats : List (List Char × HourStat)
deriving DecidableEq

/-- The state built by `PacketLossMonitor.__init__`. -/
def initMonitor : Monitor :=
  { packets_sent := 0
    packets_received := 0
    window_sent := 0
    window_received := 0
    latencies := []
    window_latencies := []
    min_latency := none
    max_latency := none
    max_window_loss_pct := 0
    hourly_stats := [] }

/-- `self.hourly_stats[hour_key]` mutated by `f`: the `defaultdict` creates the
bucket on first access. -/
def bumpHour (hs : List (List Char × HourStat)) (k : List Char)
    (f : HourStat → HourStat) : List (List Char × HourStat) :=
  match hs with
  | [] => [(k, f emptyHourStat)]
  | (k', v) :: t => if k' = k then (k', f v) :: t else (k', v) :: bumpHour t k f

/-- Source lines 133-135: `packets_sent += 1; window_sent += 1;
hourly_stats[hour_key]['sent'] += 1`. -/
def bumpSentAll (m : Monitor) (hour : List Char) : Monitor :=
  { m with
      packets_sent := m.packets_sent + 1
      window_sent := m.window_sent + 1
      hourly_stats := bumpHour m.hourly_stats hour
        (fun h => { h with sent := h.sent + 1 }) }

/-- Source lines 138-140: `packets_received += 1; window_received += 1;
hourly_stats[hour_key]['received'] += 1`. -/
def bumpRecvAll (m : Monitor) (hour : List Char) : Monitor :=
  { m with
      packets_received := m.packets_received + 1
      window_received := m.window_received + 1
      hourly_stats := bumpHour m.hourly_stats hour
        (fun h => { h with received := h.received + 1 }) }

/-- Source lines 145-154: append the extracted latency to all three latency
sequences and update the running extrema. -/
def addLatency (m : Monitor) (hour : List Char) (lat : Rat) : Monitor :=
  { m with
      latencies := m.latencies ++ [lat]
      window_latencies := m.window_latencies ++ [lat]
      hourly_stats := bumpHour m.hourly_stats hour
        (fun h => { h with latencies := h.latencies ++ [lat] })
      min_latency := some (match m.min_latency with
        | none => lat
        | some mn => if lat < mn then lat else mn)
      max_latency := some (match m.max_latency with
        | none => lat
        | some mx => if mx < lat then lat else mx) }

/-- Source lines 132-159: the counter/latency updates performed for one
(stripped, non-empty) line. -/
def updateCounters (m : Monitor) (hour line : List Char) : Monitor :=
  if isIcmpLine line then
    if isTimeLine line then
      match searchTime line with
      | some lat => addLatency (bumpRecvAll (bumpSentAll m hour) hour) hour lat
      | none => bumpRecvAll (bumpSentAll m hour) hour
    else bumpSentAll m hour
  else if isTimeoutLine line then bumpSentAll m hour
  else m

/-- Source line 163: loss percentage of the current window. -/
def windowLossPct (m : Monitor) : Rat :=
  if 0 < m.window_sent then
    (((m.window_sent : Rat) - (m.window_received : Rat)) / (m.window_sent : Rat)) * 100
  else 0

/-- `sum(xs)/len(xs) if xs else 0`. -/
def avgOf (xs : List Rat) : Rat :=
  if xs.isEmpty then 0 else xs.sum / (xs.length : Rat)

/-- Sum of squared deviations from the mean, the numerator used by
`statistics.stdev`. -/
def sumSqDev (xs : List Rat) : Rat :=
  (xs.map (fun x => (x - avgOf xs) * (x - avgOf xs))).sum

/-- Square of `statistics.stdev(xs) if len(xs) > 1 else 0` (the guarded jitter
expression at source lines 48, 70 and 168).  `statistics.stdev` is the square
root of the Bessel-corrected sample variance `sumSqDev xs / (len xs - 1)`. -/
def jitterSqOf (xs : List Rat) : Rat :=
  if 1 < xs.length then sumSqDev xs / ((xs.length : Rat) - 1) else 0

/-- One periodic window report (the block printed at source lines 162-174),
holding the window data the report is computed from. -/
structure Report where
  sent : Nat
  received : Nat
  latencies : List Rat
  lossPct : Rat
  avgLatency : Rat
  jitterSq : Rat
  firstPacket : Int
  lastPacket : Nat
deriving DecidableEq

/-- The report of the window that is complete in state `m` (source lines
163-173, computed before the window counters are reset). -/
def mkReport (m : Monitor) : Report :=
  { sent := m.window_sent
    received := m.window_received
    latencies := m.window_latencies
    lossPct := windowLossPct m
    avgLatency := avgOf m.window_latencies
    jitterSq := jitterSqOf m.window_latencies
    firstPacket := (m.packets_sent : Int) - 99
    lastPacket := m.packets_sent }

/-- Source lines 165-166 and 176-179: update `max_window_loss_pct`, then reset
the window counters and latency list. -/
def completeWindow (m : Monitor) : Monitor :=
  { m with
      max_window_loss_pct :=
        if m.max_window_loss_pct < windowLossPct m then windowLossPct m
        else m.max_window_loss_pct
      window_sent := 0
      window_received := 0
      window_latencies := [] }

/-- One iteration of the read loop of `PacketLossMonitor.run` (source lines
120-179): strip the line, skip it when empty, update the counters, and emit a
window report whenever `packets_sent` is a positive multiple of 100. -/
def processLine (m : Monitor) (l : InLine) : Monitor × List Report :=
  let line := strip l.text
  if line = [] then (m, [])
  else
    let m1 := updateCounters m l.hour line
    if 0 < m1.packets_sent ∧ m1.packets_sent % 100 = 0 then
      (completeWindow m1, [mkReport m1])
    else (m1, [])

/-- Process a whole input stream, collecting the emitted window reports in
order. -/
def processAll (m : Monitor) : List InLine → Monitor × List Report
  | [] => (m, [])
  | l :: ls =>
    ((processAll (processLine m l).1 ls).1,
      (processLine m l).2 ++ (processAll (processLine m l).1 ls).2)

/-- `PacketLossMonitor.calculate_loss_percentage` (source lines 40-43). -/
def calculate_loss_percentage (m : Monitor) : Rat :=
  if m.packets_sent = 0 then 0
  else (((m.packets_sent : Rat) - (m.packets_received : Rat)) / (m.packets_sent : Rat)) * 100

/-- Loss percentage of one hourly bucket (source line 68). -/
def hourlyLossPct (sent received : Nat) : Rat :=
  if 0 < sent then (((sent : Rat) - (received : Rat)) / (sent : Rat)) * 100 else 0

/-- The statistics of one granularity as the reports render them. -/
structure Summary where
  sent : Nat
  received : Nat
  lossPct : Rat
  avgLatency : Rat
  jitterSq : Rat
deriving DecidableEq

/-- The cumulative figures of `print_summary` (source lines 45-59). -/
def cumulativeSummary (m : Monitor) : Summary :=
  { sent := m.packets_sent
    received := m.packets_received
    lossPct := calculate_loss_percentage m
    avgLatency := avgOf m.latencies
    jitterSq := jitterSqOf m.latencies }

/-- The per-hour figures of the hourly breakdown (source lines 66-74). -/
def hourlySummaryOf (h : HourStat) : Summary :=
  { sent := h.sent
    received := h.received
    lossPct := hourlyLossPct h.sent h.received
    avgLatency := avgOf h.latencies
    jitterSq := jitterSqOf h.latencies }

/-- Python's `<` on strings: lexicographic comparison by code point. -/
def strLtB : List Char → List Char → Bool
  | _, [] => false
  | [], _ :: _ => true
  | a :: as, b :: bs => if a < b then true else if b < a then false else strLtB as bs

/-- The total preorder `sorted` orders keys by. -/
def strLeB (a b : List Char) : Bool := ! strLtB b a

/-- `sorted(self.hourly_stats.keys())` paired with the buckets, i.e. the order
in which the hourly breakdown (source line 64) lists the buckets. -/
def sortedHourly (m : Monitor) : List (List Char × HourStat) :=
  m.hourly_stats.mergeSort (fun p q => strLeB p.1 q.1)

/-- The per-line classification of source lines 132-159, as a pure view:
`none` for a non-probe line, otherwise `some (received, latency)`. -/
def classify (line : List Char) : Option (Bool × Option Rat) :=
  if isIcmpLine line then
    if isTimeLine line then some (true, searchTime line)
    else some (false, none)
  else if isTimeoutLine line then some (false, none)
  else none

/-- Number of probe events in a stream (sent counter increments). -/
def countSent (ls : List InLine) : Nat :=
  ls.countP (fun l => (classify (strip l.text)).isSome)

/-- Number of events classified Received in a stream. -/
def countReceived (ls : List InLine) : Nat :=
  ls.countP (fun l =>
    match classify (strip l.text) with
    | some (true, _) => true
    | _ => false)

/-- The hour keys of the probe events of a stream. -/
def probeHours (ls : List InLine) : List (List Char) :=
  (ls.filter (fun l => (classify (strip l.text)).isSome)).map InLine.hour

/-- Modelled from the spec (§4.1): the loss-percentage formula
`(sent - received) / sent * 100` when `sent > 0`, else `0.0`. -/
def specLossPct (sent received : Nat) : Rat :=
  if 0 < sent then (((sent : Rat) - (received : Rat)) / (sent : Rat)) * 100 else 0

/-- Modelled from the spec (§4.1/§8): square of the jitter, `0.0` with fewer
than 2 latency samples, otherwise the Bessel-corrected sample variance
`Σ (x - μ)² / (n - 1)` of the latency sequence. -/
def specJitterSq (xs : List Rat) : Rat :=
  if 2 ≤ xs.length then
    (xs.map (fun x => (x - xs.sum / (xs.length : Rat)) * (x - xs.sum / (xs.length : Rat)))).sum
      / ((xs.length : Rat) - 1)
  else 0

/-- Modelled from the spec (§6, as claim C3 reads it): a probe line is
Received, with the matched latency, exactly when the latency pattern matches
somewhere in the line; otherwise Lost. -/
def specParserC3 (line : List Char) : Option (Bool × Option Rat) :=
  if isIcmpLine line then
    match searchTime line with
    | some v => some (true, some v)
    | none => some (false, none)
  else if isTimeoutLine line then some (false, none)
  else none

/-- Sent-counter increment caused by one (stripped) line. -/
def dSent (line : List Char) : Nat :=
  if (classify line).isSome then 1 else 0

/-- Received-counter increment caused by one (stripped) line. -/
def dRecv (line : List Char) : Nat :=
  match classify line with
  | some (true, _) => 1
  | _ => 0

/-- Latency-sample increment caused by one (stripped) line. -/
def dLat (line : List Char) : Nat :=
  match classify line with
  | some (true, some _) => 1
  | _ => 0

/-- Keys of the hourly map, in insertion order. -/
def hourKeys (hs : List (List Char × HourStat)) : List (List Char) :=
  hs.map Prod.fst

/-- Total packets sent over all hourly buckets. -/
def hourSentSum (hs : List (List Char × HourStat)) : Nat :=
  (hs.map (fun p => p.2.sent)).sum

/-- Total packets received over all hourly buckets. -/
def hourRecvSum (hs : List (List Char × HourStat)) : Nat :=
  (hs.map (fun p => p.2.received)).sum

/-- Reading an hourly bucket (without creating it). -/
def getHour (hs : List (List Char × HourStat)) (k : List Char) : HourStat :=
  match hs with
  | [] => emptyHourStat
  | (k', v) :: t => if k' = k then v else getHour t k

/-- A minimal sent-but-lost probe line (contains `icmp_seq`, no latency). -/
def probeLineA : InLine := ⟨"2024-01-01 10:00".toList, "icmp_seq".toList⟩

/-- A non-probe informational header line of `ping`'s output. -/
def pingHeaderLine : InLine :=
  ⟨"2024-01-01 10:00".toList, "PING 8.8.8.8 (8.8.8.8): 56 data bytes".toList⟩

/-- An input stream of 100 probe lines followed by one informational line. -/
def linesC1 : List InLine := List.replicate 100 probeLineA ++ [pingHeaderLine]

/-- A probe line whose `time=` token is not followed by a numeric latency. -/
def malformedRecvLine : InLine :=
  ⟨"2024-01-01 10:00".toList, "icmp_seq time=x".toList⟩

/-- A probe line that was sent but lost (no `time` token at all). -/
def lostLineText : List Char := "64 bytes from 8.8.8.8: icmp_seq=1 ttl=117".toList

/-- A monitor state 99 sent packets into the first 100-packet window. -/
def monitorAt99 : Monitor := { initMonitor with packets_sent := 99, window_sent := 99 }

section Lemmas

lemma processAll_cons (m : Monitor) (l : InLine) (ls : List InLine) :
    processAll m (l :: ls) =
      ((processAll (processLine m l).1 ls).1,
        (processLine m l).2 ++ (processAll (processLine m l).1 ls).2) := rfl

lemma preserve (P : Monitor → Prop)
    (h : ∀ m l, P m → P (processLine m l).1) :
    ∀ (ls : List InLine) (m : Monitor), P m → P (processAll m ls).1 := by
  intro ls
  induction ls with
  | nil => intro m hm; exact hm
  | cons l ls ih =>
    intro m hm
    rw [processAll_cons]
    exact ih _ (h m l hm)

lemma getHour_bumpHour_same (hs : List (List Char × HourStat)) (k : List Char)
    (f : HourStat → HourStat) :
    getHour (bumpHour hs k f) k = f (getHour hs k) := by
  induction hs with
  | nil => simp [bumpHour, getHour]
  | cons p t ih =>
    obtain ⟨k', v⟩ := p
    by_cases hk : k' = k
    · simp [bumpHour, getHour, hk]
    · simp [bumpHour, getHour, hk, ih]

lemma getHour_bumpHour_other (hs : List (List Char × HourStat)) (k k' : List Char)
    (f : HourStat → HourStat) (hne : k' ≠ k) :
    getHour (bumpHour hs k f) k' = getHour hs k' := by
  induction hs with
  | nil =>
    have h1 : k ≠ k' := Ne.symm hne
    simp [bumpHour, getHour, h1]
  | cons p t ih =>
    obtain ⟨k₀, v⟩ := p
    by_cases hk : k₀ = k
    · subst hk
      have h1 : k₀ ≠ k' := Ne.symm hne
      simp [bumpHour, getHour, h1]
    · simp only [bumpHour, if_neg hk]
      by_cases hk' : k₀ = k'
      · simp [getHour, hk']
      · simp [getHour, hk', ih]

lemma hourKeys_bumpHour (hs : List (List Char × HourStat)) (k : List Char)
    (f : HourStat → HourStat) :
    hourKeys (bumpHour hs k f) =
      if k ∈ hourKeys hs then hourKeys hs else hourKeys hs ++ [k] := by
  induction hs with
  | nil => simp [bumpHour, hourKeys]
  | cons p t ih =>
    obtain ⟨k₀, v⟩ := p
    by_cases hk : k₀ = k
    · subst hk
      have hmem : k₀ ∈ hourKeys ((k₀, v) :: t) := List.mem_cons_self _ _
      rw [if_pos hmem]
      simp [bumpHour, hourKeys]
    · have hkeys : hourKeys ((k₀, v) :: t) = k₀ :: hourKeys t := rfl
      have hb : bumpHour ((k₀, v) :: t) k f = (k₀, v) :: bumpHour t k f := by
        simp [bumpHour, hk]
      have hkeys2 : hourKeys ((k₀, v) :: bumpHour t k f)
          = k₀ :: hourKeys (bumpHour t k f) := rfl
      have hmem2 : (k ∈ k₀ :: hourKeys t) ↔ (k ∈ hourKeys t) := by
        constructor
        · intro h
          rcases List.mem_cons.1 h with h1 | h1
          · exact absurd h1.symm hk
          · exact h1
        · exact fun h => List.mem_cons_of_mem _ h
      rw [hb, hkeys, hkeys2, ih]
      by_cases hmem : k ∈ hourKeys t
      · rw [if_pos hmem, if_pos (hmem2.2 hmem)]
      · rw [if_neg hmem, if_neg (fun h => hmem (hmem2.1 h))]
        simp

lemma mem_hourKeys_bumpHour (hs : List (List Char × HourStat)) (k k' : List Char)
    (f : HourStat → HourStat) :
    k' ∈ hourKeys (bumpHour hs k f) ↔ k' ∈ hourKeys hs ∨ k' = k := by
  rw [hourKeys_bumpHour]
  by_cases hmem : k ∈ hourKeys hs
  · simp only [hmem, if_true]
    constructor
    · exact Or.inl
    · rintro (h | rfl)
      · exact h
      · exact hmem
  · simp [hmem]

lemma nodup_hourKeys_bumpHour (hs : List (List Char × HourStat)) (k : List Char)
    (f : HourStat → HourStat) (hnd : (hourKeys hs).Nodup) :
    (hourKeys (bumpHour hs k f)).Nodup := by
  rw [hourKeys_bumpHour]
  by_cases hmem : k ∈ hourKeys hs
  · rw [if_pos hmem]; exact hnd
  · rw [if_neg hmem]
    refine List.Nodup.append hnd (List.nodup_singleton k) ?_
    intro a ha hb
    rw [List.mem_singleton] at hb
    subst hb
    exact hmem ha

lemma hourSentSum_bumpHour (hs : List (List Char × HourStat)) (k : List Char)
    (f : HourStat → HourStat) (d : Nat) (hf : ∀ x, (f x).sent = x.sent + d) :
    hourSentSum (bumpHour hs k f) = hourSentSum hs + d := by
  induction hs with
  | nil => simp [bumpHour, hourSentSum, hf, emptyHourStat]
  | cons p t ih =>
    obtain ⟨k₀, v⟩ := p
    by_cases hk : k₀ = k
    · simp [bumpHour, hourSentSum, hk, hf]
      omega
    · simp [bumpHour, hourSentSum, hk] at ih ⊢
      omega

lemma hourRecvSum_bumpHour (hs : List (List Char × HourStat)) (k : List Char)
    (f : HourStat → HourStat) (d : Nat) (hf : ∀ x, (f x).received = x.received + d) :
    hourRecvSum (bumpHour hs k f) = hourRecvSum hs + d := by
  induction hs with
  | nil => simp [bumpHour, hourRecvSum, hf, emptyHourStat]
  | cons p t ih =>
    obtain ⟨k₀, v⟩ := p
    by_cases hk : k₀ = k
    · simp [bumpHour, hourRecvSum, hk, hf]
      omega
    · simp [bumpHour, hourRecvSum, hk] at ih ⊢
      omega

lemma getHour_of_mem (hs : List (List Char × HourStat)) (k : List Char)
    (v : HourStat) (hnd : (hourKeys hs).Nodup) (hm : (k, v) ∈ hs) :
    getHour hs k = v := by
  induction hs with
  | nil => cases hm
  | cons p t ih =>
    obtain ⟨k₀, v₀⟩ := p
    have hkeys : hourKeys ((k₀, v₀) :: t) = k₀ :: hourKeys t := rfl
    rw [hkeys] at hnd
    have hnd' : (hourKeys t).Nodup := (List.nodup_cons.1 hnd).2
    rcases List.mem_cons.1 hm with heq | hmem
    · cases heq
      simp [getHour]
    · have hk : k₀ ≠ k := by
        rintro rfl
        have hmk : k₀ ∈ hourKeys t := List.mem_map_of_mem Prod.fst hmem
        exact (List.nodup_cons.1 hnd).1 hmk
      simp [getHour, hk, ih hnd' hmem]

lemma updateCounters_counters (m : Monitor) (h line : List Char) :
    (updateCounters m h line).packets_sent = m.packets_sent + dSent line ∧
    (updateCounters m h line).window_sent = m.window_sent + dSent line ∧
    (updateCounters m h line).packets_received = m.packets_received + dRecv line ∧
    (updateCounters m h line).window_received = m.window_received + dRecv line ∧
    (updateCounters m h line).latencies.length = m.latencies.length + dLat line ∧
    (updateCounters m h line).max_window_loss_pct = m.max_window_loss_pct := by
  unfold updateCounters dSent dRecv dLat classify
  by_cases hi : isIcmpLine line
  · by_cases ht : isTimeLine line
    · cases hs : searchTime line with
      | some lat => simp [hi, ht, hs, addLatency, bumpRecvAll, bumpSentAll]
      | none => simp [hi, ht, hs, bumpRecvAll, bumpSentAll]
    · simp [hi, ht, bumpSentAll]
  · by_cases hto : isTimeoutLine line
    · simp [hi, hto, bumpSentAll]
    · simp [hi, hto]

lemma updateCounters_hourSums (m : Monitor) (h line : List Char) :
    hourSentSum (updateCounters m h line).hourly_stats
      = hourSentSum m.hourly_stats + dSent line ∧
    hourRecvSum (updateCounters m h line).hourly_stats
      = hourRecvSum m.hourly_stats + dRecv line := by
  unfold updateCounters dSent dRecv classify
  by_cases hi : isIcmpLine line
  · by_cases ht : isTimeLine line
    · cases hs : searchTime line with
      | some lat =>
        simp only [hi, ht, hs, if_true, addLatency, bumpRecvAll, bumpSentAll]
        constructor
        · simp only [Option.isSome_some, if_true]
          rw [hourSentSum_bumpHour _ _ _ 0 (by intro x; simp),
            hourSentSum_bumpHour _ _ _ 0 (by intro x; simp),
            hourSentSum_bumpHour _ _ _ 1 (by intro x; simp)]
        · rw [hourRecvSum_bumpHour _ _ _ 0 (by intro x; simp),
            hourRecvSum_bumpHour _ _ _ 1 (by intro x; simp),
            hourRecvSum_bumpHour _ _ _ 0 (by intro x; simp)]
      | none =>
        simp only [hi, ht, hs, if_true, bumpRecvAll, bumpSentAll]
        constructor
        · simp only [Option.isSome_some, if_true]
          rw [hourSentSum_bumpHour _ _ _ 0 (by intro x; simp),
            hourSentSum_bumpHour _ _ _ 1 (by intro x; simp)]
        · rw [hourRecvSum_bumpHour _ _ _ 1 (by intro x; simp),
            hourRecvSum_bumpHour _ _ _ 0 (by intro x; simp)]
    · simp only [hi, ht, if_true, if_false, Bool.false_eq_true, bumpSentAll]
      constructor
      · simp only [Option.isSome_some, if_true]
        rw [hourSentSum_bumpHour _ _ _ 1 (by intro x; simp)]
      · rw [hourRecvSum_bumpHour _ _ _ 0 (by intro x; simp)]
  · by_cases hto : isTimeoutLine line
    · simp only [hi, hto, if_true, if_false, Bool.false_eq_true, bumpSentAll]
      constructor
      · simp only [Option.isSome_some, if_true]
        rw [hourSentSum_bumpHour _ _ _ 1 (by intro x; simp)]
      · rw [hourRecvSum_bumpHour _ _ _ 0 (by intro x; simp)]
    · simp [hi, hto]

lemma mem_hourKeys_updateCounters (m : Monitor) (h line : List Char) (k : List Char) :
    k ∈ hourKeys (updateCounters m h line).hourly_stats ↔
      k ∈ hourKeys m.hourly_stats ∨ ((classify line).isSome = true ∧ k = h) := by
  unfold updateCounters classify
  by_cases hi : isIcmpLine line
  · by_cases ht : isTimeLine line
    · cases hs : searchTime line with
      | some lat =>
        simp only [hi, ht, hs, if_true, addLatency, bumpRecvAll, bumpSentAll]
        simp [mem_hourKeys_bumpHour, or_assoc]
      | none =>
        simp only [hi, ht, hs, if_true, bumpRecvAll, bumpSentAll]
        simp [mem_hourKeys_bumpHour, or_assoc]
    · simp only [hi, ht, if_true, if_false, Bool.false_eq_true, bumpSentAll]
      simp [mem_hourKeys_bumpHour]
  · by_cases hto : isTimeoutLine line
    · simp only [hi, hto, if_true, if_false, Bool.false_eq_true, bumpSentAll]
      simp [mem_hourKeys_bumpHour]
    · simp [hi, hto]

lemma nodup_hourKeys_updateCounters (m : Monitor) (h line : List Char)
    (hnd : (hourKeys m.hourly_stats).Nodup) :
    (hourKeys (updateCounters m h line).hourly_stats).Nodup := by
  unfold updateCounters
  by_cases hi : isIcmpLine line
  · by_cases ht : isTimeLine line
    · cases hs : searchTime line with
      | some lat =>
        simp only [hi, ht, hs, if_true, addLatency, bumpRecvAll, bumpSentAll]
        exact nodup_hourKeys_bumpHour _ _ _
          (nodup_hourKeys_bumpHour _ _ _ (nodup_hourKeys_bumpHour _ _ _ hnd))
      | none =>
        simp only [hi, ht, hs, if_true, bumpRecvAll, bumpSentAll]
        exact nodup_hourKeys_bumpHour _ _ _ (nodup_hourKeys_bumpHour _ _ _ hnd)
    · simp only [hi, ht, if_true, if_false, Bool.false_eq_true, bumpSentAll]
      exact nodup_hourKeys_bumpHour _ _ _ hnd
  · by_cases hto : isTimeoutLine line
    · simp only [hi, hto, if_true, if_false, Bool.false_eq_true, bumpSentAll]
      exact nodup_hourKeys_bumpHour _ _ _ hnd
    · simpa [hi, hto] using hnd

lemma completeWindow_stable (m : Monitor) :
    (completeWindow m).packets_sent = m.packets_sent ∧
    (completeWindow m).packets_received = m.packets_received ∧
    (completeWindow m).latencies = m.latencies ∧
    (completeWindow m).hourly_stats = m.hourly_stats := by
  simp [completeWindow]

lemma dSent_nil : dSent ([] : List Char) = 0 := by decide

lemma dRecv_nil : dRecv ([] : List Char) = 0 := by decide

lemma dLat_nil : dLat ([] : List Char) = 0 := by decide

lemma processLine_packets (m : Monitor) (l : InLine) :
    (processLine m l).1.packets_sent = m.packets_sent + dSent (strip l.text) ∧
    (processLine m l).1.packets_received = m.packets_received + dRecv (strip l.text) ∧
    (processLine m l).1.latencies.length = m.latencies.length + dLat (strip l.text) ∧
    hourSentSum (processLine m l).1.hourly_stats
      = hourSentSum m.hourly_stats + dSent (strip l.text) ∧
    hourRecvSum (processLine m l).1.hourly_stats
      = hourRecvSum m.hourly_stats + dRecv (strip l.text) := by
  unfold processLine
  by_cases hnil : strip l.text = []
  · simp [hnil, dSent_nil, dRecv_nil, dLat_nil]
  · have hc := updateCounters_counters m l.hour (strip l.text)
    have hh := updateCounters_hourSums m l.hour (strip l.text)
    simp only [if_neg hnil]
    by_cases hw : 0 < (updateCounters m l.hour (strip l.text)).packets_sent ∧
        (updateCounters m l.hour (strip l.text)).packets_sent % 100 = 0
    · have hs := completeWindow_stable (updateCounters m l.hour (strip l.text))
      simp only [if_pos hw]
      refine ⟨?_, ?_, ?_, ?_, ?_⟩
      · rw [hs.1, hc.1]
      · rw [hs.2.1, hc.2.2.1]
      · rw [hs.2.2.1, hc.2.2.2.2.1]
      · rw [hs.2.2.2, hh.1]
      · rw [hs.2.2.2, hh.2]
    · simp only [if_neg hw]
      exact ⟨hc.1, hc.2.2.1, hc.2.2.2.2.1, hh.1, hh.2⟩

lemma dRecv_le_dSent (line : List Char) : dRecv line ≤ dSent line := by
  unfold dRecv dSent
  rcases h : classify line with _ | ⟨b, lat⟩
  · simp
  · cases b <;> simp

lemma dLat_le_dRecv (line : List Char) : dLat line ≤ dRecv line := by
  unfold dLat dRecv
  rcases h : classify line with _ | ⟨b, lat⟩
  · simp
  · cases b with
    | false => simp
    | true => rcases lat with _ | v <;> simp

lemma dSent_le_one (line : List Char) : dSent line ≤ 1 := by
  unfold dSent
  split <;> simp

lemma countSent_cons (l : InLine) (ls : List InLine) :
    countSent (l :: ls) = dSent (strip l.text) + countSent ls := by
  unfold countSent dSent
  rw [List.countP_cons]
  by_cases h : (classify (strip l.text)).isSome
  · simp [h, Nat.add_comm]
  · simp [h]

lemma countReceived_cons (l : InLine) (ls : List InLine) :
    countReceived (l :: ls) = dRecv (strip l.text) + countReceived ls := by
  unfold countReceived dRecv
  rw [List.countP_cons]
  rcases h : classify (strip l.text) with _ | ⟨b, lat⟩
  · simp [h]
  · cases b <;> simp [h, Nat.add_comm]

lemma probeHours_cons (l : InLine) (ls : List InLine) :
    probeHours (l :: ls) =
      if (classify (strip l.text)).isSome = true then l.hour :: probeHours ls
      else probeHours ls := by
  unfold probeHours
  rw [List.filter_cons]
  by_cases h : (classify (strip l.text)).isSome <;> simp [h]

lemma classify_nil : classify ([] : List Char) = none := by decide

lemma processAll_counts (ls : List InLine) : ∀ m : Monitor,
    (processAll m ls).1.packets_sent = m.packets_sent + countSent ls ∧
    (processAll m ls).1.packets_received = m.packets_received + countReceived ls := by
  induction ls with
  | nil => intro m; simp [processAll, countSent, countReceived]
  | cons l ls ih =>
    intro m
    rw [processAll_cons]
    have hp := processLine_packets m l
    have hc := ih (processLine m l).1
    rw [countSent_cons, countReceived_cons]
    constructor
    · rw [hc.1, hp.1]; omega
    · rw [hc.2, hp.2.1]; omega

lemma processLine_mem_hourKeys (m : Monitor) (l : InLine) (k : List Char) :
    k ∈ hourKeys (processLine m l).1.hourly_stats ↔
      k ∈ hourKeys m.hourly_stats ∨
        ((classify (strip l.text)).isSome = true ∧ k = l.hour) := by
  unfold processLine
  by_cases hnil : strip l.text = []
  · rw [hnil]
    simp [classify_nil]
  · simp only [if_neg hnil]
    by_cases hw : 0 < (updateCounters m l.hour (strip l.text)).packets_sent ∧
        (updateCounters m l.hour (strip l.text)).packets_sent % 100 = 0
    · simp only [if_pos hw]
      rw [(completeWindow_stable _).2.2.2]
      exact mem_hourKeys_updateCounters m l.hour (strip l.text) k
    · simp only [if_neg hw]
      exact mem_hourKeys_updateCounters m l.hour (strip l.text) k

lemma processAll_mem_hourKeys (ls : List InLine) : ∀ (m : Monitor) (k : List Char),
    k ∈ hourKeys (processAll m ls).1.hourly_stats ↔
      k ∈ hourKeys m.hourly_stats ∨ k ∈ probeHours ls := by
  induction ls with
  | nil => intro m k; simp [processAll, probeHours]
  | cons l ls ih =>
    intro m k
    rw [processAll_cons]
    rw [ih (processLine m l).1 k, processLine_mem_hourKeys, probeHours_cons]
    by_cases h : (classify (strip l.text)).isSome = true
    · simp only [h, if_true, true_and, List.mem_cons]
      tauto
    · simp only [h, if_false]
      tauto

lemma processLine_nodup_hourKeys (m : Monitor) (l : InLine)
    (hnd : (hourKeys m.hourly_stats).Nodup) :
    (hourKeys (processLine m l).1.hourly_stats).Nodup := by
  unfold processLine
  by_cases hnil : strip l.text = []
  · simpa [hnil] using hnd
  · simp only [if_neg hnil]
    by_cases hw : 0 < (updateCounters m l.hour (strip l.text)).packets_sent ∧
        (updateCounters m l.hour (strip l.text)).packets_sent % 100 = 0
    · simp only [if_pos hw]
      rw [(completeWindow_stable _).2.2.2]
      exact nodup_hourKeys_updateCounters m l.hour (strip l.text) hnd
    · simp only [if_neg hw]
      exact nodup_hourKeys_updateCounters m l.hour (strip l.text) hnd

lemma getHour_latLeRecv_updateCounters (m : Monitor) (h line : List Char)
    (hp : ∀ k, (getHour m.hourly_stats k).latencies.length
        ≤ (getHour m.hourly_stats k).received) :
    ∀ k, (getHour (updateCounters m h line).hourly_stats k).latencies.length
        ≤ (getHour (updateCounters m h line).hourly_stats k).received := by
  intro k
  unfold updateCounters
  by_cases hi : isIcmpLine line
  · by_cases ht : isTimeLine line
    · cases hs : searchTime line with
      | some lat =>
        simp only [hi, ht, hs, if_true, addLatency, bumpRecvAll, bumpSentAll]
        by_cases hk : k = h
        · subst hk
          rw [getHour_bumpHour_same, getHour_bumpHour_same, getHour_bumpHour_same]
          simpa using hp k
        · rw [getHour_bumpHour_other _ _ _ _ hk, getHour_bumpHour_other _ _ _ _ hk,
            getHour_bumpHour_other _ _ _ _ hk]
          exact hp k
      | none =>
        simp only [hi, ht, hs, if_true, bumpRecvAll, bumpSentAll]
        by_cases hk : k = h
        · subst hk
          rw [getHour_bumpHour_same, getHour_bumpHour_same]
          simp only
          calc (getHour m.hourly_stats k).latencies.length
              ≤ (getHour m.hourly_stats k).received := hp k
            _ ≤ (getHour m.hourly_stats k).received + 1 := Nat.le_succ _
        · rw [getHour_bumpHour_other _ _ _ _ hk, getHour_bumpHour_other _ _ _ _ hk]
          exact hp k
    · simp only [hi, ht, if_true, if_false, Bool.false_eq_true, bumpSentAll]
      by_cases hk : k = h
      · subst hk
        rw [getHour_bumpHour_same]
        simpa using hp k
      · rw [getHour_bumpHour_other _ _ _ _ hk]
        exact hp k
  · by_cases hto : isTimeoutLine line
    · simp only [hi, hto, if_true, if_false, Bool.false_eq_true, bumpSentAll]
      by_cases hk : k = h
      · subst hk
        rw [getHour_bumpHour_same]
        simpa using hp k
      · rw [getHour_bumpHour_other _ _ _ _ hk]
        exact hp k
    · simp only [hi, hto, if_false, Bool.false_eq_true]
      exact hp k

lemma processLine_max (m : Monitor) (l : InLine) :
    (processLine m l).1.max_window_loss_pct =
      List.foldl max m.max_window_loss_pct
        ((processLine m l).2.map Report.lossPct) := by
  unfold processLine
  by_cases hnil : strip l.text = []
  · simp [hnil]
  · simp only [if_neg hnil]
    by_cases hw : 0 < (updateCounters m l.hour (strip l.text)).packets_sent ∧
        (updateCounters m l.hour (strip l.text)).packets_sent % 100 = 0
    · simp only [if_pos hw]
      have hmx := (updateCounters_counters m l.hour (strip l.text)).2.2.2.2.2
      simp only [completeWindow, mkReport, List.map_cons, List.map_nil,
        List.foldl_cons, List.foldl_nil, hmx]
      rcases lt_or_le m.max_window_loss_pct
          (windowLossPct (updateCounters m l.hour (strip l.text))) with hlt | hle
      · rw [if_pos hlt, max_eq_right (le_of_lt hlt)]
      · rw [if_neg (not_lt.2 hle), max_eq_left hle]
    · simp only [if_neg hw, List.map_nil, List.foldl_nil]
      exact (updateCounters_counters m l.hour (strip l.text)).2.2.2.2.2

lemma processAll_max (ls : List InLine) : ∀ m : Monitor,
    (processAll m ls).1.max_window_loss_pct =
      List.foldl max m.max_window_loss_pct
        ((processAll m ls).2.map Report.lossPct) := by
  induction ls with
  | nil => intro m; simp [processAll]
  | cons l ls ih =>
    intro m
    rw [processAll_cons]
    simp only [List.map_append, List.foldl_append]
    rw [ih (processLine m l).1, processLine_max]

lemma le_foldl_max (a : Rat) (xs : List Rat) : a ≤ List.foldl max a xs := by
  induction xs generalizing a with
  | nil => exact le_refl a
  | cons x xs ih =>
    rw [List.foldl_cons]
    exact le_trans (le_max_left a x) (ih (max a x))

lemma winInv_step (m : Monitor) (l : InLine)
    (hi : m.window_sent = m.packets_sent % 100 ∧ m.window_received ≤ m.window_sent) :
    (processLine m l).1.window_sent = (processLine m l).1.packets_sent % 100 ∧
    (processLine m l).1.window_received ≤ (processLine m l).1.window_sent := by
  unfold processLine
  by_cases hnil : strip l.text = []
  · simpa [hnil] using hi
  · simp only [if_neg hnil]
    have hc := updateCounters_counters m l.hour (strip l.text)
    have hds := dSent_le_one (strip l.text)
    have hdr := dRecv_le_dSent (strip l.text)
    by_cases hw : 0 < (updateCounters m l.hour (strip l.text)).packets_sent ∧
        (updateCounters m l.hour (strip l.text)).packets_sent % 100 = 0
    · simp only [if_pos hw, completeWindow]
      refine ⟨?_, le_refl 0⟩
      omega
    · simp only [if_neg hw]
      rw [Decidable.not_and_iff_or_not] at hw
      constructor
      · rw [hc.1, hc.2.1, hi.1] at *
        omega
      · rw [hc.2.1, hc.2.2.2.1]
        omega

lemma strLtB_irrefl : ∀ a : List Char, strLtB a a = false := by
  intro a
  induction a with
  | nil => rfl
  | cons c t ih => simp [strLtB, ih, lt_irrefl]

lemma strLtB_trans (a : List Char) : ∀ b c : List Char,
    strLtB a b = true → strLtB b c = true → strLtB a c = true := by
  induction a with
  | nil =>
    intro b c hab hbc
    cases b with
    | nil => simp [strLtB] at hab
    | cons y ys =>
      cases c with
      | nil => simp [strLtB] at hbc
      | cons z zs => simp [strLtB]
  | cons x xs ih =>
    intro b c hab hbc
    cases b with
    | nil => simp [strLtB] at hab
    | cons y ys =>
      cases c with
      | nil => simp [strLtB] at hbc
      | cons z zs =>
        simp only [strLtB] at hab hbc ⊢
        by_cases hxy : x < y
        · by_cases hyz : y < z
          · simp [lt_trans hxy hyz]
          · by_cases hzy : z < y
            · simp [hyz, hzy] at hbc
            · have h1 : y = z := le_antisymm (not_lt.1 hzy) (not_lt.1 hyz)
              subst h1
              simp [hxy]
        · by_cases hyx : y < x
          · simp [hxy, hyx] at hab
          · have h1 : x = y := le_antisymm (not_lt.1 hyx) (not_lt.1 hxy)
            subst h1
            simp only [hxy, if_false, lt_irrefl] at hab ⊢
            by_cases hyz : x < z
            · simp [hyz]
            · by_cases hzy : z < x
              · simp [hyz, hzy] at hbc
              · have h2 : x = z := le_antisymm (not_lt.1 hzy) (not_lt.1 hyz)
                subst h2
                simp only [lt_irrefl, if_false] at hbc ⊢
                exact ih ys zs hab hbc

lemma strLtB_tri (a : List Char) : ∀ b : List Char,
    strLtB a b = true ∨ a = b ∨ strLtB b a = true := by
  induction a with
  | nil =>
    intro b
    cases b with
    | nil => exact Or.inr (Or.inl rfl)
    | cons y ys => exact Or.inl (by simp [strLtB])
  | cons x xs ih =>
    intro b
    cases b with
    | nil => exact Or.inr (Or.inr (by simp [strLtB]))
    | cons y ys =>
      by_cases hxy : x < y
      · exact Or.inl (by simp [strLtB, hxy])
      · by_cases hyx : y < x
        · exact Or.inr (Or.inr (by simp [strLtB, hyx]))
        · have h1 : x = y := le_antisymm (not_lt.1 hyx) (not_lt.1 hxy)
          subst h1
          rcases ih ys with h | h | h
          · exact Or.inl (by simp [strLtB, lt_irrefl, h])
          · exact Or.inr (Or.inl (by rw [h]))
          · exact Or.inr (Or.inr (by simp [strLtB, lt_irrefl, h]))

lemma strLtB_asymm (a b : List Char)
    (hab : strLtB a b = true) (hba : strLtB b a = true) : False := by
  have := strLtB_trans a b a hab hba
  rw [strLtB_irrefl] at this
  cases this

lemma strLeB_trans (a b c : List Char)
    (hab : strLeB a b = true) (hbc : strLeB b c = true) : strLeB a c = true := by
  unfold strLeB at *
  rw [Bool.not_eq_true'] at hab hbc ⊢
  by_cases hca : strLtB c a = true
  · exfalso
    rcases strLtB_tri c b with h | h | h
    · rw [h] at hbc; cases hbc
    · subst h
      rw [hca] at hab; cases hab
    · have := strLtB_trans b c a h hca
      rw [this] at hab; cases hab
  · exact Bool.not_eq_true _ ▸ hca

lemma strLeB_total (a b : List Char) :
    (strLeB a b || strLeB b a) = true := by
  unfold strLeB
  by_cases hab : strLtB a b = true
  · have : strLtB b a = false := by
      by_cases h : strLtB b a = true
      · exact absurd (strLtB_asymm a b hab h) (fun f => f)
      · exact Bool.not_eq_true _ ▸ h
    simp [this]
  · have : strLtB a b = false := Bool.not_eq_true _ ▸ hab
    simp [this]

lemma strLtB_of_strLeB_of_ne (a b : List Char)
    (hle : strLeB a b = true) (hne : a ≠ b) : strLtB a b = true := by
  rcases strLtB_tri a b with h | h | h
  · exact h
  · exact absurd h hne
  · unfold strLeB at hle
    rw [Bool.not_eq_true'] at hle
    rw [hle] at h
    cases h

lemma processLine_latLeRecv (m : Monitor) (l : InLine)
    (hp : ∀ k, (getHour m.hourly_stats k).latencies.length
        ≤ (getHour m.hourly_stats k).received) :
    ∀ k, (getHour (processLine m l).1.hourly_stats k).latencies.length
        ≤ (getHour (processLine m l).1.hourly_stats k).received := by
  unfold processLine
  by_cases hnil : strip l.text = []
  · simpa [hnil] using hp
  · simp only [if_neg hnil]
    by_cases hw : 0 < (updateCounters m l.hour (strip l.text)).packets_sent ∧
        (updateCounters m l.hour (strip l.text)).packets_sent % 100 = 0
    · simp only [if_pos hw]
      rw [(completeWindow_stable _).2.2.2]
      exact getHour_latLeRecv_updateCounters m l.hour (strip l.text) hp
    · simp only [if_neg hw]
      exact getHour_latLeRecv_updateCounters m l.hour (strip l.text) hp

lemma all_of_getHour_latLeRecv (hs : List (List Char × HourStat))
    (hnd : (hourKeys hs).Nodup)
    (hp : ∀ k, (getHour hs k).latencies.length ≤ (getHour hs k).received) :
    hs.all (fun p => p.2.latencies.length ≤ p.2.received) = true := by
  rw [List.all_eq_true]
  rintro ⟨k, v⟩ hm
  have hv := getHour_of_mem hs k v hnd hm
  have h2 := hp k
  rw [hv] at h2
  exact decide_eq_true h2

lemma loss_eq_spec (m : Monitor) :
    calculate_loss_percentage m = specLossPct m.packets_sent m.packets_received := by
  unfold calculate_loss_percentage specLossPct
  by_cases h : m.packets_sent = 0
  · simp [h]
  · rw [if_neg h, if_pos (Nat.pos_of_ne_zero h)]

lemma nodup_hourKeys_processAll (ls : List InLine) :
    (hourKeys (processAll initMonitor ls).1.hourly_stats).Nodup :=
  preserve (fun m => (hourKeys m.hourly_stats).Nodup)
    (fun m l h => processLine_nodup_hourKeys m l h) ls initMonitor
    (by simp [initMonitor, hourKeys])

end Lemmas

set_option maxRecDepth 20000 in
/-- C1 (code bug at the source): a window completion is supposed to fire
exactly once per 100 sent probe events, and non-probe lines must never trigger
one; but the completion check at source line 162 runs for every non-empty
line, so after the 100th probe event the following informational (non-probe)
line triggers a second, degenerate completion.  On 100 minimal probe lines
followed by one `PING` header line, the stream contains exactly 100 probe
events yet two window reports are emitted — the second with an empty window
(`sent = 0`). -/
theorem c1_extra_completion_on_nonprobe_line :
    ((processAll initMonitor linesC1).2.map Report.sent = [100, 0]) ∧
    (processAll initMonitor linesC1).1.packets_sent = 100 ∧
    countSent linesC1 = 100 := by decide

/-- C2 counterexample: on the single probe line `icmp_seq time=x` the code
increments `packets_received` (the line contains the substring `time=`) but
appends no latency sample (the numeric pattern does not match), so
`len(all_latencies) == received` fails both cumulatively and in the line's
hourly bucket. -/
theorem c2_counterexample :
    (processAll initMonitor [malformedRecvLine]).1.packets_received = 1 ∧
    (processAll initMonitor [malformedRecvLine]).1.latencies.length = 0 ∧
    (processAll initMonitor [malformedRecvLine]).1.hourly_stats.map
      (fun p => (p.2.received, p.2.latencies.length)) = [(1, 0)] := by decide

/-- C2 (amended): after processing any sequence of input lines,
`len(all_latencies) ≤ received` cumulatively, and `len(latencies) ≤ received`
in every hourly bucket; equality can fail only on lines carrying a
`time=`/`time =` token without a numeric `ms` latency. -/
theorem c2_latency_count_le_received : ∀ ls : List InLine,
    (processAll initMonitor ls).1.latencies.length
        ≤ (processAll initMonitor ls).1.packets_received ∧
    (processAll initMonitor ls).1.hourly_stats.all
        (fun p => p.2.latencies.length ≤ p.2.received) = true := by
  intro ls
  constructor
  · exact preserve (fun m => m.latencies.length ≤ m.packets_received)
      (fun m l hp => by
        have hp' : m.latencies.length ≤ m.packets_received := hp
        have h := processLine_packets m l
        have hdl := dLat_le_dRecv (strip l.text)
        show (processLine m l).1.latencies.length
            ≤ (processLine m l).1.packets_received
        rw [h.2.2.1, h.2.1]
        omega)
      ls initMonitor (le_refl 0)
  · have hp := preserve
      (fun m => ∀ k, (getHour m.hourly_stats k).latencies.length
          ≤ (getHour m.hourly_stats k).received)
      (fun m l hp => processLine_latLeRecv m l hp)
      ls initMonitor (fun k => le_refl 0)
    exact all_of_getHour_latLeRecv _ (nodup_hourKeys_processAll ls) hp

/-- C3 counterexample: the line `icmp_seq time=x` contains `icmp_seq` and the
latency pattern does not match anywhere in it, so by the claim its outcome
must be Lost; the code classifies it as Received (with no latency), because
the Received decision is the bare substring test `'time=' in line`, not the
numeric pattern. -/
theorem c3_counterexample :
    classify "icmp_seq time=x".toList = some (true, none) ∧
    specParserC3 "icmp_seq time=x".toList = some (false, none) := by decide

/-- C3 (amended): for every line containing `icmp_seq`, the outcome is
Received exactly when the line contains the substring `time=` or `time =`;
when Received, the latency is the value of the first match of
`time[=\s]+(\d+\.?\d*)\s*ms` if that pattern matches anywhere (and absent
otherwise); when Lost, no latency is recorded. -/
theorem c3_amended_classify (line : List Char) (hi : isIcmpLine line = true) :
    classify line = some (isTimeLine line,
      if isTimeLine line then searchTime line else none) := by
  unfold classify
  rw [if_pos hi]
  by_cases ht : isTimeLine line = true
  · rw [if_pos ht, if_pos ht, ht]
  · rw [Bool.not_eq_true] at ht
    rw [ht]
    simp

/-- Witness for C3 (amended) at the concrete lost probe line
`64 bytes from 8.8.8.8: icmp_seq=1 ttl=117`. -/
theorem c3_amended_classify_witness :
    classify lostLineText = some (false, none) := by
  have h := c3_amended_classify lostLineText (by decide)
  rw [h]
  decide

/-- C4: at every granularity the reported loss percentage is
`(sent - received) / sent * 100` when `sent > 0` and `0.0` when `sent == 0`;
division by zero is avoided by the explicit `sent == 0` / `sent > 0` guards,
so the zero case is a returned value, never an exception (all three embedded
loss computations are total functions). -/
theorem c4_loss_formula :
    (∀ m : Monitor, calculate_loss_percentage m
        = specLossPct m.packets_sent m.packets_received) ∧
    (∀ m : Monitor, windowLossPct m = specLossPct m.window_sent m.window_received) ∧
    (∀ s r : Nat, hourlyLossPct s r = specLossPct s r) ∧
    (∀ r : Nat, specLossPct 0 r = 0) := by
  refine ⟨loss_eq_spec, fun m => rfl, fun s r => rfl, fun r => rfl⟩

/-- C5: at every granularity (cumulative summary, hourly summary, window
report) the reported jitter is `0.0` with fewer than 2 latency samples and the
Bessel-corrected (divide by `n-1`) sample standard deviation with at least 2;
stated on the square of the jitter, which determines the non-negative reported
value uniquely. -/
theorem c5_jitter :
    (∀ xs : List Rat, jitterSqOf xs = specJitterSq xs) ∧
    (∀ m : Monitor, (cumulativeSummary m).jitterSq = jitterSqOf m.latencies ∧
      (mkReport m).jitterSq = jitterSqOf m.window_latencies) ∧
    (∀ h : HourStat, (hourlySummaryOf h).jitterSq = jitterSqOf h.latencies) ∧
    jitterSqOf ([] : List Rat) = 0 ∧ (∀ x : Rat, jitterSqOf [x] = 0) := by
  refine ⟨?_, fun m => ⟨rfl, rfl⟩, fun h => rfl, rfl, fun x => rfl⟩
  intro xs
  unfold jitterSqOf specJitterSq sumSqDev avgOf
  by_cases hl : 1 < xs.length
  · have h2 : 2 ≤ xs.length := hl
    have hne : xs.isEmpty = false := by
      cases xs with
      | nil => simp at hl
      | cons a t => rfl
    rw [if_pos hl, if_pos h2, hne]
    simp
  · have h2 : ¬ 2 ≤ xs.length := hl
    rw [if_neg hl, if_neg h2]

/-- C6: `max_window_loss_pct` equals the maximum (with floor `0.0`, its
initial value, which also covers the time before the first window completes)
of the loss percentages of all window reports emitted so far, and it is
monotonically non-decreasing under processing any further line. -/
theorem c6_max_window_loss : ∀ ls : List InLine,
    (processAll initMonitor ls).1.max_window_loss_pct =
      List.foldl max 0 (((processAll initMonitor ls).2).map Report.lossPct) ∧
    ∀ l : InLine,
      (processAll initMonitor ls).1.max_window_loss_pct ≤
        (processLine (processAll initMonitor ls).1 l).1.max_window_loss_pct := by
  intro ls
  constructor
  · exact processAll_max ls initMonitor
  · intro l
    rw [processLine_max]
    exact le_foldl_max _ _

/-- C7: after processing any input stream the current window state satisfies
`window_received ≤ window_sent ≤ 100` (both are naturals, so `0 ≤` holds
trivially); and whenever a line emits a window report, the report is computed
from the pre-reset window values (`mkReport` of the state right after the
counter updates) and the window counters and latency list are reset to empty
afterwards. -/
theorem c7_window_invariant :
    (∀ ls : List InLine,
      (processAll initMonitor ls).1.window_received
          ≤ (processAll initMonitor ls).1.window_sent ∧
      (processAll initMonitor ls).1.window_sent ≤ 100) ∧
    (∀ (m : Monitor) (l : InLine), (processLine m l).2.length = 1 →
      (processLine m l).1.window_sent = 0 ∧
      (processLine m l).1.window_received = 0 ∧
      (processLine m l).1.window_latencies = [] ∧
      (processLine m l).2 = [mkReport (updateCounters m l.hour (strip l.text))]) := by
  constructor
  · intro ls
    have h := preserve
      (fun m => m.window_sent = m.packets_sent % 100 ∧
        m.window_received ≤ m.window_sent)
      (fun m l hi => winInv_step m l hi) ls initMonitor ⟨rfl, le_refl 0⟩
    refine ⟨h.2, ?_⟩
    have h1 := h.1
    omega
  · intro m l hrep
    unfold processLine at hrep ⊢
    by_cases hnil : strip l.text = []
    · rw [if_pos hnil] at hrep
      simp at hrep
    · simp only [if_neg hnil] at hrep ⊢
      by_cases hw : 0 < (updateCounters m l.hour (strip l.text)).packets_sent ∧
          (updateCounters m l.hour (strip l.text)).packets_sent % 100 = 0
      · rw [if_pos hw]
        exact ⟨rfl, rfl, rfl, rfl⟩
      · simp only [if_neg hw] at hrep
        simp at hrep

/-- Witness for C7 at a concrete completing step: a monitor 99 packets into
the window processes one more probe line, emitting exactly one report and
resetting the window. -/
theorem c7_window_invariant_witness :
    (processLine monitorAt99 probeLineA).1.window_sent = 0 ∧
    (processLine monitorAt99 probeLineA).1.window_received = 0 ∧
    (processLine monitorAt99 probeLineA).1.window_latencies = [] ∧
    (processLine monitorAt99 probeLineA).2 =
      [mkReport (updateCounters monitorAt99 probeLineA.hour
        (strip probeLineA.text))] :=
  c7_window_invariant.2 monitorAt99 probeLineA (by decide)

/-- C8: for every input stream, the cumulative counters equal the number of
probe events and the number of Received events, and
`calculate_loss_percentage` applied to the final state equals the §4.1 formula
applied to those two counters. -/
theorem c8_cumulative_counts : ∀ ls : List InLine,
    (processAll initMonitor ls).1.packets_sent = countSent ls ∧
    (processAll initMonitor ls).1.packets_received = countReceived ls ∧
    calculate_loss_percentage (processAll initMonitor ls).1 =
      specLossPct (processAll initMonitor ls).1.packets_sent
        (processAll initMonitor ls).1.packets_received := by
  intro ls
  have h := processAll_counts ls initMonitor
  refine ⟨?_, ?_, loss_eq_spec _⟩
  · have h1 := h.1
    simpa [initMonitor] using h1
  · have h2 := h.2
    simpa [initMonitor] using h2

/-- C9: the hourly breakdown (buckets in `sorted(keys)` order) is strictly
ascending in the lexicographic (code-point) key order, and its keys are
exactly the hour keys that received at least one probe event — one entry per
distinct such key, independent of the insertion order of events. -/
theorem c9_hourly_breakdown_sorted : ∀ ls : List InLine,
    List.Pairwise (fun p q => strLtB p.1 q.1 = true)
      (sortedHourly (processAll initMonitor ls).1) ∧
    ∀ k : List Char,
      (k ∈ hourKeys (sortedHourly (processAll initMonitor ls).1) ↔
        k ∈ probeHours ls) := by
  intro ls
  have hnd := nodup_hourKeys_processAll ls
  have hperm : List.Perm (sortedHourly (processAll initMonitor ls).1)
      (processAll initMonitor ls).1.hourly_stats :=
    List.mergeSort_perm _ _
  constructor
  · have hsorted :
        ((processAll initMonitor ls).1.hourly_stats.mergeSort
            (fun p q => strLeB p.1 q.1)).Pairwise
          (fun p q => strLeB p.1 q.1 = true) :=
      List.sorted_mergeSort
        (fun a b c hab hbc => strLeB_trans a.1 b.1 c.1 hab hbc)
        (fun a b => strLeB_total a.1 b.1)
        (processAll initMonitor ls).1.hourly_stats
    have hndS : (hourKeys (sortedHourly (processAll initMonitor ls).1)).Nodup :=
      (List.Perm.nodup_iff (hperm.map Prod.fst)).2 hnd
    have hndS' : (List.map Prod.fst
        (sortedHourly (processAll initMonitor ls).1)).Pairwise
          (fun a b : List Char => a ≠ b) := hndS
    have hne : (sortedHourly (processAll initMonitor ls).1).Pairwise
        (fun p q : List Char × HourStat => p.1 ≠ q.1) :=
      List.pairwise_map.mp hndS'
    have hand := List.Pairwise.and hsorted hne
    exact hand.imp (fun hab => strLtB_of_strLeB_of_ne _ _ hab.1 hab.2)
  · intro k
    have h1 : k ∈ hourKeys (sortedHourly (processAll initMonitor ls).1) ↔
        k ∈ hourKeys (processAll initMonitor ls).1.hourly_stats :=
      (hperm.map Prod.fst).mem_iff
    rw [h1]
    have h2 := processAll_mem_hourKeys ls initMonitor k
    have h0 : hourKeys initMonitor.hourly_stats = [] := rfl
    rw [h0] at h2
    rw [h2]
    simp

/-- C10: after processing any sequence of input lines, the hourly buckets'
sent counters sum to the cumulative `packets_sent`, and their received
counters sum to the cumulative `packets_received`. -/
theorem c10_hourly_sums_match_cumulative : ∀ ls : List InLine,
    hourSentSum (processAll initMonitor ls).1.hourly_stats
        = (processAll initMonitor ls).1.packets_sent ∧
    hourRecvSum (processAll initMonitor ls).1.hourly_stats
        = (processAll initMonitor ls).1.packets_received := by
  intro ls
  exact preserve
    (fun m => hourSentSum m.hourly_stats = m.packets_sent ∧
      hourRecvSum m.hourly_stats = m.packets_received)
    (fun m l hp => by
      have hp1 : hourSentSum m.hourly_stats = m.packets_sent := hp.1
      have hp2 : hourRecvSum m.hourly_stats = m.packets_received := hp.2
      have h := processLine_packets m l
      show hourSentSum (processLine m l).1.hourly_stats
            = (processLine m l).1.packets_sent ∧
          hourRecvSum (processLine m l).1.hourly_stats
            = (processLine m l).1.packets_received
      constructor
      · rw [h.2.2.2.1, h.1, hp1]
      · rw [h.2.2.2.2, h.2.1, hp2])
    ls initMonitor ⟨rfl, rfl⟩

end PacketLoss
